import Mathlib

/-!
Shallow embedding of the ubc-food-safety pipeline (src/main.go) and proofs
about the claims of its specification.

Conventions of the embedding:
* Go `float64` coordinate values are modelled as exact rationals (`ℚ`);
  the program only stores coordinates and compares them with `<`.
* Go `int` is modelled as `Int` (the values involved are small counts,
  no arithmetic in the program relies on wrap-around).
* In-place mutation of the restaurant slice is modelled by returning the
  updated list together with an `Option String` error component: the
  returned list holds the prefix updated before an error, exactly as the
  Go code leaves the records it has already written.
* The JSON (de)serialization of the store (`encoding/json` with
  `Encoder.Encode` / a single `Decoder.Decode`) is modelled by an
  injective, self-delimiting character serialization `encDb` / `decDb`:
  `decDb` reads one leading value and returns the rest of the input,
  mirroring `json.Decoder.Decode` reading a single JSON value and
  ignoring trailing bytes.  `db.save` opens the file with
  `O_CREATE|O_WRONLY` (no `O_TRUNC`), so it overwrites from offset 0
  without truncating: `save` below reproduces that byte-level behaviour.
-/

namespace FoodSafety

/-- Model of the Go `latLong` struct (float64 pair, modelled as ℚ). -/
structure latLong where
  Lat : ℚ
  Long : ℚ
deriving DecidableEq

/-- Model of the Go `inspection` struct. -/
structure inspection where
  Date : String
  Number : String
  Reason : String
  NonCritical : Int
  Critical : Int
deriving DecidableEq

/-- Model of the Go `restaurant` struct. -/
structure restaurant where
  ID : String
  Name : String
  FacilityType : String
  Community : String
  SiteAddress : String
  PhoneNumber : String
  MoreDetailsURL : String
  OutstandingNonCriticalInfractions : Int
  OutstandingCriticalInfractions : Int
  Inspections : List inspection
  LatLong : latLong
  InfractionsPastYear : Int
  InfractionsTotal : Int
deriving DecidableEq

/-- A default restaurant record (all zero values), used only as the
default element for `List.getD` in concrete statements. -/
def r0 : restaurant :=
  ⟨"", "", "", "", "", "", "", 0, 0, [], ⟨0, 0⟩, 0, 0⟩

/-- The geocode cache: a finite map address → latLong, modelled as an
association list (most recent insertion first, as `lookupCache` reads
the first match — this matches Go map insert/lookup semantics). -/
abbrev Cache := List (String × latLong)

/-- Model of the Go `db` struct (`Restaurants`, `GeocodeCache`). -/
structure db where
  Restaurants : List restaurant
  GeocodeCache : Cache
deriving DecidableEq

/-- Model of `makeDB`: empty restaurant slice, empty geocode cache. -/
def makeDB : db := ⟨[], []⟩

instance {ε α : Type} [DecidableEq ε] [DecidableEq α] :
    DecidableEq (Except ε α) := fun x y =>
  match x, y with
  | .ok a, .ok b => decidable_of_iff (a = b) (by simp)
  | .error e, .error f => decidable_of_iff (e = f) (by simp)
  | .ok _, .error _ => isFalse fun h => Except.noConfusion h
  | .error _, .ok _ => isFalse fun h => Except.noConfusion h

/-! ## Dates

`computeInfractionsPastYear` parses inspection dates with
`time.Parse("02-Jan-2006", ...)`: a two-digit day, an abbreviated month
name, a four-digit year, with the day validated against the length of
the month.  We model the resulting `time.Time` (midnight, UTC) as a
calendar-date triple and `time.Time.After` as strict lexicographic
comparison. -/

/-- A calendar date (the date part of a Go `time.Time`). -/
structure date where
  year : Int
  month : Nat
  day : Nat
deriving DecidableEq

/-- Gregorian leap-year rule, as used by Go's `time` package. -/
def isLeapYear (y : Int) : Bool :=
  y % 4 == 0 && (y % 100 != 0 || y % 400 == 0)

/-- Days in a month (months numbered 1..12). -/
def daysInMonth (y : Int) (m : Nat) : Nat :=
  match m with
  | 1 => 31
  | 2 => if isLeapYear y then 29 else 28
  | 3 => 31
  | 4 => 30
  | 5 => 31
  | 6 => 30
  | 7 => 31
  | 8 => 31
  | 9 => 30
  | 10 => 31
  | 11 => 30
  | 12 => 31
  | _ => 0

/-- Abbreviated month names of the `Jan` layout element. -/
def monthFromName (s : String) : Option Nat :=
  if s = "Jan" then some 1
  else if s = "Feb" then some 2
  else if s = "Mar" then some 3
  else if s = "Apr" then some 4
  else if s = "May" then some 5
  else if s = "Jun" then some 6
  else if s = "Jul" then some 7
  else if s = "Aug" then some 8
  else if s = "Sep" then some 9
  else if s = "Oct" then some 10
  else if s = "Nov" then some 11
  else if s = "Dec" then some 12
  else none

/-- Value of a decimal digit character. -/
def digitVal (c : Char) : Option Nat :=
  if c.isDigit then some (c.toNat - 48) else none

/-- Model of `time.Parse("02-Jan-2006", s)`: succeeds exactly on
`DD-Mon-YYYY` with a two-digit day, a three-letter month abbreviation,
a four-digit year, and a day within the month's range. -/
def parseDate (s : String) : Option date :=
  match s.data with
  | [d1, d2, s1, m1, m2, m3, s2, y1, y2, y3, y4] =>
    if s1 = '-' ∧ s2 = '-' then
      match digitVal d1, digitVal d2, monthFromName ⟨[m1, m2, m3]⟩,
            digitVal y1, digitVal y2, digitVal y3, digitVal y4 with
      | some a, some b, some m, some p, some q, some u, some v =>
        let day := 10 * a + b
        let year : Int := ((1000 * p + 100 * q + 10 * u + v : Nat) : Int)
        if 1 ≤ day ∧ day ≤ daysInMonth year m then some ⟨year, m, day⟩ else none
      | _, _, _, _, _, _, _ => none
    else none
  | _ => none

/-- Strict comparison of calendar dates; `b.After(a)` for midnight
`time.Time` values is `dateLt a b`. -/
def dateLt (a b : date) : Bool :=
  decide (a.year < b.year ∨ (a.year = b.year ∧
    (a.month < b.month ∨ (a.month = b.month ∧ a.day < b.day))))

/-- Model of `t.AddDate(-1, 0, 0)`: same month and day one year earlier,
with Go's date normalization (Feb 29 of a leap year becomes Mar 1 of the
preceding non-leap year). -/
def subOneYear (d : date) : date :=
  let y := d.year - 1
  if d.month = 2 ∧ d.day = 29 ∧ isLeapYear y = false then ⟨y, 3, 1⟩
  else ⟨y, d.month, d.day⟩

/-! ## Statistics aggregator (`computeInfractionsPastYear`) -/

/-- `i.Critical + i.NonCritical`, the quantity accumulated by the
aggregator's inner loop. -/
def inspectionSum (i : inspection) : Int := i.Critical + i.NonCritical

/-- The aggregator's inner loop over one restaurant's inspections:
threads the `count` (past-year) and `total` accumulators and stops with
the parse error on the first inspection date that does not parse. -/
def statsLoop (yearAgo : date) :
    List inspection → Int → Int → Except String (Int × Int)
  | [], count, total => .ok (count, total)
  | i :: rest, count, total =>
    match parseDate i.Date with
    | none => .error ("cannot parse date " ++ i.Date)
    | some d =>
      statsLoop yearAgo rest
        (if dateLt yearAgo d then count + inspectionSum i else count)
        (total + inspectionSum i)

/-- Model of `computeInfractionsPastYear(rs)` with the current time
`asOf` made explicit (`yearAgo := asOf.AddDate(-1,0,0)`).  Returns the
restaurant list as left by the Go in-place loop together with the
returned error: records before the failing one are updated, the failing
record and everything after it are untouched. -/
def computeInfractionsPastYear (asOf : date) :
    List restaurant → List restaurant × Option String
  | [] => ([], none)
  | r :: rest =>
    match statsLoop (subOneYear asOf) r.Inspections 0 0 with
    | .error e => (r :: rest, some e)
    | .ok (count, total) =>
      let out := computeInfractionsPastYear asOf rest
      ({ r with InfractionsPastYear := count, InfractionsTotal := total } :: out.1,
       out.2)

/-- Whether every inspection date of a restaurant parses in the fixed
`DD-Mon-YYYY` format. -/
def allDatesParse (r : restaurant) : Bool :=
  r.Inspections.all fun i => (parseDate i.Date).isSome

/-- Specification-side sum: critical + noncritical over all inspections. -/
def totalInfractions (l : List inspection) : Int :=
  (l.map inspectionSum).sum

/-- Whether an inspection's (parsed) date lies strictly after `yearAgo`. -/
def inPastYear (yearAgo : date) (i : inspection) : Bool :=
  match parseDate i.Date with
  | some d => dateLt yearAgo d
  | none => false

/-- Specification-side sum: critical + noncritical over the inspections
dated strictly after `yearAgo`. -/
def pastYearInfractions (yearAgo : date) (l : List inspection) : Int :=
  ((l.filter (inPastYear yearAgo)).map inspectionSum).sum

/-! ## Geographic filter (`getUBCRestaurants`) -/

/-- The fixed longitude threshold `borderLng` from the source. -/
def borderLng : ℚ := -123227883 / 1000000

/-- The filter loop of `getUBCRestaurants`, with the threshold made a
parameter (the source applies it at `borderLng`): keeps, in order,
every restaurant whose longitude is strictly below the threshold. -/
def selectSubset : List restaurant → ℚ → List restaurant
  | [], _ => []
  | r :: rest, t =>
    if r.LatLong.Long < t then r :: selectSubset rest t
    else selectSubset rest t

/-- Model of `db.getUBCRestaurants`. -/
def getUBCRestaurants (d : db) : List restaurant :=
  selectSubset d.Restaurants borderLng

/-! ## Geocoding (`db.geocode`, `db.geocodeRestaurants`) -/

/-- `strings.Split(s, "\n")` on the character list. -/
def splitLines : List Char → List (List Char)
  | [] => [[]]
  | c :: rest =>
    if c = '\n' then [] :: splitLines rest
    else
      match splitLines rest with
      | [] => [[c]]
      | h :: t => (c :: h) :: t

/-- `strings.Join(parts, ", ")` on character lists. -/
def joinCommaSpace : List (List Char) → List Char
  | [] => []
  | [l] => l
  | l :: rest => l ++ [',', ' '] ++ joinCommaSpace rest

/-- The address normalization of `db.geocode`:
`strings.Join(strings.Split(address, "\n"), ", ")`. -/
def normalizeAddress (s : String) : String :=
  ⟨joinCommaSpace (splitLines s.data)⟩

/-- Go map lookup on the association-list cache (first match). -/
def lookupCache : Cache → String → Option latLong
  | [], _ => none
  | (k, v) :: rest, a => if k = a then some v else lookupCache rest a

/-- Model of `db.geocode(address)`.  `g` is the external geocoding
capability (`geocoder.Geocode`).  Returns the result, the cache as left
by the call, and whether the external capability was invoked. -/
def geocode (g : String → Except String latLong) (cache : Cache)
    (address : String) : Except String latLong × Cache × Bool :=
  if address.data.length = 0 then (.error "address empty", cache, false)
  else
    let addr := normalizeAddress address
    match lookupCache cache addr with
    | some cached => (.ok cached, cache, false)
    | none =>
      match g addr with
      | .error e => (.error e, cache, true)
      | .ok c => (.ok c, (addr, c) :: cache, true)

/-- The community constant `vancouverWestside` from the source. -/
def vancouverWestside : String := "Vancouver - Westside"

/-- The loop of `db.geocodeRestaurants`: restaurants outside
`vancouverWestside` are skipped; for the others the address is geocoded
and the coordinate written back; the first geocode error aborts the
loop (records before it keep their new coordinates, the cache keeps any
entries added so far). -/
def geocodeLoop (g : String → Except String latLong) :
    List restaurant → Cache → List restaurant × Cache × Option String
  | [], cache => ([], cache, none)
  | r :: rest, cache =>
    if r.Community = vancouverWestside then
      match geocode g cache r.SiteAddress with
      | (.error e, cache', _) => (r :: rest, cache', some e)
      | (.ok c, cache', _) =>
        let out := geocodeLoop g rest cache'
        ({ r with LatLong := c } :: out.1, out.2.1, out.2.2)
    else
      let out := geocodeLoop g rest cache
      (r :: out.1, out.2.1, out.2.2)

/-- Model of `db.geocodeRestaurants`. -/
def geocodeRestaurants (g : String → Except String latLong) (d : db) :
    db × Option String :=
  let out := geocodeLoop g d.Restaurants d.GeocodeCache
  (⟨out.1, out.2.1⟩, out.2.2)

/-! ## Detail fetch scheduler (`fetchDetails`) -/

/-- The producer loop of `fetchDetails`: the restaurants sent to the
work queue, in listing order — a restaurant is enqueued iff
`len(r.Inspections) == 0 || *refetch`. -/
def fetchDetailsSchedule : List restaurant → Bool → List restaurant
  | [], _ => []
  | r :: rest, refetch =>
    if !(r.Inspections.length = 0 || refetch) then
      fetchDetailsSchedule rest refetch
    else r :: fetchDetailsSchedule rest refetch

/-- One worker's loop: `for r := range rsChan`, where `f` is
`fetchDetail` (`none` models a fetch error, in which case the record is
untouched).  On the first error the worker logs and returns, leaving
the rest of its queue unprocessed; the result is the list of records it
successfully processed. -/
def workerLoop (f : restaurant → Option restaurant) :
    List restaurant → List restaurant
  | [] => []
  | r :: q =>
    match f r with
    | none => []
    | some r' => r' :: workerLoop f q

/-- The scheduler as seen by its caller: the workers run their queues
(one queue per worker, a partition of the schedule), the caller joins
on all of them, and the call returns without any error — `fetchDetails`
has no error result. -/
def fetchDetailsRun (f : restaurant → Option restaurant)
    (queues : List (List restaurant)) : List restaurant :=
  (queues.map (workerLoop f)).flatten

/-! ## Persisted store (`db.save`, `db.load`)

The serialization itself is `encoding/json` (external library); we model
it by a concrete injective, self-delimiting serialization of `db` with
the one property of `json.Decoder.Decode` the program relies on: a
single `Decode` call reads exactly one leading value and ignores
whatever follows it in the file. -/

/-- The file contents, as a character list. -/
abbrev Bytes := List Char

/-- Escape a character of a string payload (backslash-escape the
delimiter and the escape character themselves). -/
def escChar (c : Char) : Bytes :=
  if c = '\\' ∨ c = ';' then ['\\', c] else [c]

/-- Serialize a string: escaped payload, then the `;` delimiter. -/
def encStr (s : String) : Bytes := (s.data.map escChar).flatten ++ [';']

/-- Deserialize an escaped payload up to the `;` delimiter. -/
def decStrAux : Bytes → Option (List Char × Bytes)
  | [] => none
  | c :: rest =>
    if c = ';' then some ([], rest)
    else if c = '\\' then
      match rest with
      | [] => none
      | d :: rest' =>
        match decStrAux rest' with
        | some (acc, r) => some (d :: acc, r)
        | none => none
    else
      match decStrAux rest with
      | some (acc, r) => some (c :: acc, r)
      | none => none

/-- Deserialize a string. -/
def decStr (cs : Bytes) : Option (String × Bytes) :=
  match decStrAux cs with
  | some (l, r) => some (⟨l⟩, r)
  | none => none

/-- Serialize a natural number: decimal digits (little-endian), then `;`. -/
def encNat (n : Nat) : Bytes := (Nat.digits 10 n).map Nat.digitChar ++ [';']

/-- Value of a digit character. -/
def charVal (c : Char) : Nat := c.toNat - 48

/-- Deserialize a natural number. -/
def decNat (cs : Bytes) : Option (Nat × Bytes) :=
  match cs.dropWhile (fun c => !(c == ';')) with
  | c :: rest =>
    if c = ';' then
      some (Nat.ofDigits 10 ((cs.takeWhile (fun c => !(c == ';'))).map charVal), rest)
    else none
  | [] => none

/-- Serialize an integer: a sign tag, then the magnitude. -/
def encInt (i : Int) : Bytes :=
  match i with
  | .ofNat n => '+' :: encNat n
  | .negSucc n => '-' :: encNat n

/-- Deserialize an integer. -/
def decInt (cs : Bytes) : Option (Int × Bytes) :=
  match cs with
  | c :: rest =>
    if c = '+' then (decNat rest).map fun p => ((p.1 : Int), p.2)
    else if c = '-' then (decNat rest).map fun p => (Int.negSucc p.1, p.2)
    else none
  | [] => none

/-- Serialize a rational (numerator, then denominator). -/
def encRat (q : ℚ) : Bytes := encInt q.num ++ encNat q.den

/-- Deserialize a rational. -/
def decRat (cs : Bytes) : Option (ℚ × Bytes) :=
  match decInt cs with
  | some (n, cs') =>
    match decNat cs' with
    | some (d, r) => some (mkRat n d, r)
    | none => none
  | none => none

/-- Serialize a coordinate pair. -/
def encLatLong (l : latLong) : Bytes := encRat l.Lat ++ encRat l.Long

/-- Deserialize a coordinate pair. -/
def decLatLong (cs : Bytes) : Option (latLong × Bytes) :=
  match decRat cs with
  | some (lat, cs') =>
    match decRat cs' with
    | some (lng, r) => some (⟨lat, lng⟩, r)
    | none => none
  | none => none

/-- Serialize a list: its length, then the elements in order. -/
def encList (enc : α → Bytes) (l : List α) : Bytes :=
  encNat l.length ++ (l.map enc).flatten

/-- Deserialize `n` consecutive elements. -/
def decListAux (dec : Bytes → Option (α × Bytes)) :
    Nat → Bytes → Option (List α × Bytes)
  | 0, cs => some ([], cs)
  | n + 1, cs =>
    match dec cs with
    | some (a, cs') =>
      match decListAux dec n cs' with
      | some (l, r) => some (a :: l, r)
      | none => none
    | none => none

/-- Deserialize a list. -/
def decList (dec : Bytes → Option (α × Bytes)) (cs : Bytes) :
    Option (List α × Bytes) :=
  match decNat cs with
  | some (n, rest) => decListAux dec n rest
  | none => none

/-- Serialize a geocode-cache entry. -/
def encCacheEntry (p : String × latLong) : Bytes :=
  encStr p.1 ++ encLatLong p.2

/-- Deserialize a geocode-cache entry. -/
def decCacheEntry (cs : Bytes) : Option ((String × latLong) × Bytes) :=
  match decStr cs with
  | some (k, cs') =>
    match decLatLong cs' with
    | some (v, r) => some ((k, v), r)
    | none => none
  | none => none

/-- Serialize an inspection record. -/
def encInspection (i : inspection) : Bytes :=
  encStr i.Date ++ (encStr i.Number ++ (encStr i.Reason ++
    (encInt i.NonCritical ++ encInt i.Critical)))

/-- Deserialize an inspection record. -/
def decInspection (cs : Bytes) : Option (inspection × Bytes) :=
  match decStr cs with
  | some (date, cs1) =>
    match decStr cs1 with
    | some (number, cs2) =>
      match decStr cs2 with
      | some (reason, cs3) =>
        match decInt cs3 with
        | some (nc, cs4) =>
          match decInt cs4 with
          | some (c, r) => some (⟨date, number, reason, nc, c⟩, r)
          | none => none
        | none => none
      | none => none
    | none => none
  | none => none

/-- Serialize a restaurant record. -/
def encRestaurant (r : restaurant) : Bytes :=
  encStr r.ID ++ (encStr r.Name ++ (encStr r.FacilityType ++
    (encStr r.Community ++ (encStr r.SiteAddress ++ (encStr r.PhoneNumber ++
    (encStr r.MoreDetailsURL ++ (encInt r.OutstandingNonCriticalInfractions ++
    (encInt r.OutstandingCriticalInfractions ++
    (encList encInspection r.Inspections ++ (encLatLong r.LatLong ++
    (encInt r.InfractionsPastYear ++ encInt r.InfractionsTotal)))))))))))

/-- Deserialize a restaurant record. -/
def decRestaurant (cs : Bytes) : Option (restaurant × Bytes) :=
  match decStr cs with
  | some (id, cs1) =>
    match decStr cs1 with
    | some (name, cs2) =>
      match decStr cs2 with
      | some (ft, cs3) =>
        match decStr cs3 with
        | some (comm, cs4) =>
          match decStr cs4 with
          | some (addr, cs5) =>
            match decStr cs5 with
            | some (phone, cs6) =>
              match decStr cs6 with
              | some (url, cs7) =>
                match decInt cs7 with
                | some (onc, cs8) =>
                  match decInt cs8 with
                  | some (oc, cs9) =>
                    match decList decInspection cs9 with
                    | some (insp, cs10) =>
                      match decLatLong cs10 with
                      | some (ll, cs11) =>
                        match decInt cs11 with
                        | some (ipy, cs12) =>
                          match decInt cs12 with
                          | some (itot, r) =>
                            some (⟨id, name, ft, comm, addr, phone, url,
                              onc, oc, insp, ll, ipy, itot⟩, r)
                          | none => none
                        | none => none
                      | none => none
                    | none => none
                  | none => none
                | none => none
              | none => none
            | none => none
          | none => none
        | none => none
      | none => none
    | none => none
  | none => none

/-- Serialize the store. -/
def encDb (d : db) : Bytes :=
  encList encRestaurant d.Restaurants ++ encList encCacheEntry d.GeocodeCache

/-- Deserialize one leading store value, returning the remaining bytes
(the model of a single `json.Decoder.Decode` call). -/
def decDb (cs : Bytes) : Option (db × Bytes) :=
  match decList decRestaurant cs with
  | some (rs, cs') =>
    match decList decCacheEntry cs' with
    | some (cache, r) => some (⟨rs, cache⟩, r)
    | none => none
  | none => none

/-- Model of `db.save`: the file is opened with `O_CREATE|O_WRONLY`
(without `O_TRUNC`) and the encoding is written from offset 0, so bytes
of the prior content beyond the new encoding's length survive. -/
def save (prior : Bytes) (d : db) : Bytes :=
  encDb d ++ prior.drop (encDb d).length

/-- Model of `db.load`: an absent file yields the fresh `makeDB` store
with no error; otherwise one leading value is decoded (trailing bytes
are not examined) and a decode failure is the returned error. -/
def load (file : Option Bytes) : Except String db :=
  match file with
  | none => .ok makeDB
  | some cs =>
    match decDb cs with
    | some (d, _) => .ok d
    | none => .error "decode error"

/-! ## Concrete records used in witnesses and counterexamples -/

/-- A concrete "current time" for concrete runs of the aggregator. -/
def asOfC : date := ⟨2026, 10, 11⟩

/-- A restaurant with an unparseable inspection date. -/
def rBad : restaurant := { r0 with Inspections := [⟨"garbage", "", "", 0, 0⟩] }

/-- A restaurant with no inspections but a stale nonzero total. -/
def rStale : restaurant := { r0 with InfractionsTotal := 5 }

/-- A restaurant with one old inspection carrying a negative count. -/
def rNeg : restaurant :=
  { r0 with Inspections := [⟨"01-Jan-2000", "", "", 0, -1⟩] }

/-- A restaurant with one parseable old inspection (counts 1 and 2). -/
def rGood : restaurant :=
  { r0 with Inspections := [⟨"01-Jan-2000", "", "", 1, 2⟩] }

/-- A Westside restaurant with a blank address. -/
def rWest0 : restaurant := { r0 with Community := "Vancouver - Westside" }

/-- An external geocoder that always fails. -/
def gFail : String → Except String latLong := fun _ => .error "external"

/-- A fetch oracle that succeeds exactly on restaurants with no
recorded inspections. -/
def fOk : restaurant → Option restaurant :=
  fun r => if r.Inspections.isEmpty then some r else none

/-- A cache holding the empty address (as loaded from a crafted file). -/
def cacheE : Cache := [("", ⟨1, 2⟩)]

/-- A cache holding a normalized two-line address. -/
def cacheW : Cache := [("A, B", ⟨3, 4⟩)]

/-- Prior durable file content longer than the encoding of `makeDB`. -/
def priorX : Bytes := ['x', 'x', 'x']

/-! ## Lemmas: serialization round trip -/

theorem decStrAux_semi (r : Bytes) : decStrAux (';' :: r) = some ([], r) := by
  cases r <;> simp [decStrAux]

theorem decStrAux_esc (c : Char) (r : Bytes) :
    decStrAux ('\\' :: c :: r) =
      match decStrAux r with
      | some (acc, r') => some (c :: acc, r')
      | none => none := by
  simp [decStrAux]

theorem decStrAux_other (c : Char) (r : Bytes) (h1 : c ≠ ';') (h2 : c ≠ '\\') :
    decStrAux (c :: r) =
      match decStrAux r with
      | some (acc, r') => some (c :: acc, r')
      | none => none := by
  cases r <;> simp [decStrAux, h1, h2]

theorem decStrAux_enc : ∀ (l : List Char) (r : Bytes),
    decStrAux ((l.map escChar).flatten ++ ';' :: r) = some (l, r) := by
  intro l
  induction l with
  | nil => intro r; simp [decStrAux_semi]
  | cons c t ih =>
    intro r
    by_cases hc : c = '\\' ∨ c = ';'
    · simp only [List.map_cons, List.flatten_cons, escChar, if_pos hc,
        List.cons_append, List.append_assoc]
      rw [decStrAux_esc]
      simp [ih r]
    · push_neg at hc
      have he : escChar c = [c] := by simp [escChar, hc.1, hc.2]
      simp only [List.map_cons, List.flatten_cons, he, List.cons_append,
        List.append_assoc]
      rw [decStrAux_other c _ hc.2 hc.1]
      simp [ih r]

theorem decStr_enc (s : String) (r : Bytes) :
    decStr (encStr s ++ r) = some (s, r) := by
  obtain ⟨l⟩ := s
  simp [encStr, decStr, List.append_assoc, decStrAux_enc]

theorem takeWhile_append_of_all {α} (p : α → Bool) :
    ∀ (l r : List α), (∀ c ∈ l, p c = true) →
      (l ++ r).takeWhile p = l ++ r.takeWhile p := by
  intro l
  induction l with
  | nil => intro r _; simp
  | cons a t ih =>
    intro r h
    have ha : p a = true := h a (by simp)
    simp only [List.cons_append, List.takeWhile_cons, ha, if_true]
    simp [ih r fun c hc => h c (by simp [hc])]

theorem dropWhile_append_of_all {α} (p : α → Bool) :
    ∀ (l r : List α), (∀ c ∈ l, p c = true) →
      (l ++ r).dropWhile p = r.dropWhile p := by
  intro l
  induction l with
  | nil => intro r _; simp
  | cons a t ih =>
    intro r h
    have ha : p a = true := h a (by simp)
    simp only [List.cons_append, List.dropWhile_cons, ha, if_true]
    exact ih r fun c hc => h c (by simp [hc])

theorem digitChar_ne_semi : ∀ d, d < 10 → (!(Nat.digitChar d == ';')) = true := by
  decide

theorem charVal_digitChar : ∀ d, d < 10 → charVal (Nat.digitChar d) = d := by
  decide

theorem decNat_enc (n : Nat) (r : Bytes) : decNat (encNat n ++ r) = some (n, r) := by
  have hd : ∀ c ∈ (Nat.digits 10 n).map Nat.digitChar, (!(c == ';')) = true := by
    intro c hc
    obtain ⟨d, hdm, rfl⟩ := List.mem_map.mp hc
    exact digitChar_ne_semi d (Nat.digits_lt_base (by norm_num) hdm)
  have hmap : ((Nat.digits 10 n).map Nat.digitChar).map charVal = Nat.digits 10 n := by
    rw [List.map_map]
    conv_rhs => rw [← List.map_id (Nat.digits 10 n)]
    apply List.map_congr_left
    intro d hdm
    exact charVal_digitChar d (Nat.digits_lt_base (by norm_num) hdm)
  unfold decNat encNat
  rw [List.append_assoc, List.singleton_append,
    dropWhile_append_of_all _ _ _ hd, takeWhile_append_of_all _ _ _ hd]
  simp [hmap, Nat.ofDigits_digits]

theorem decInt_enc (i : Int) (r : Bytes) : decInt (encInt i ++ r) = some (i, r) := by
  cases i with
  | ofNat n => simp [encInt, decInt, decNat_enc]
  | negSucc n => simp [encInt, decInt, decNat_enc]

theorem decRat_enc (q : ℚ) (r : Bytes) : decRat (encRat q ++ r) = some (q, r) := by
  simp [encRat, decRat, List.append_assoc, decInt_enc, decNat_enc, Rat.mkRat_self]

theorem decLatLong_enc (l : latLong) (r : Bytes) :
    decLatLong (encLatLong l ++ r) = some (l, r) := by
  simp [encLatLong, decLatLong, List.append_assoc, decRat_enc]

theorem decListAux_enc {α} (enc : α → Bytes) (dec : Bytes → Option (α × Bytes))
    (H : ∀ a r, dec (enc a ++ r) = some (a, r)) :
    ∀ (l : List α) (r : Bytes),
      decListAux dec l.length ((l.map enc).flatten ++ r) = some (l, r) := by
  intro l
  induction l with
  | nil => intro r; simp [decListAux]
  | cons a t ih =>
    intro r
    simp [decListAux, List.append_assoc, H, ih r]

theorem decList_enc {α} (enc : α → Bytes) (dec : Bytes → Option (α × Bytes))
    (H : ∀ a r, dec (enc a ++ r) = some (a, r)) (l : List α) (r : Bytes) :
    decList dec (encList enc l ++ r) = some (l, r) := by
  simp [encList, decList, List.append_assoc, decNat_enc, decListAux_enc enc dec H]

theorem decCacheEntry_enc (p : String × latLong) (r : Bytes) :
    decCacheEntry (encCacheEntry p ++ r) = some (p, r) := by
  simp [encCacheEntry, decCacheEntry, List.append_assoc, decStr_enc, decLatLong_enc]

theorem decInspection_enc (i : inspection) (r : Bytes) :
    decInspection (encInspection i ++ r) = some (i, r) := by
  simp [encInspection, decInspection, List.append_assoc, decStr_enc, decInt_enc]

theorem decRestaurant_enc (x : restaurant) (r : Bytes) :
    decRestaurant (encRestaurant x ++ r) = some (x, r) := by
  simp [encRestaurant, decRestaurant, List.append_assoc, decStr_enc, decInt_enc,
    decLatLong_enc, decList_enc encInspection decInspection decInspection_enc]

theorem decDb_enc (d : db) (r : Bytes) : decDb (encDb d ++ r) = some (d, r) := by
  simp [encDb, decDb, List.append_assoc,
    decList_enc encRestaurant decRestaurant decRestaurant_enc,
    decList_enc encCacheEntry decCacheEntry decCacheEntry_enc]

/-! ## Lemmas: statistics aggregator -/

theorem statsLoop_ok (y : date) :
    ∀ (l : List inspection) (c t : Int),
      (∀ i ∈ l, (parseDate i.Date).isSome) →
      statsLoop y l c t = .ok (c + pastYearInfractions y l, t + totalInfractions l) := by
  intro l
  induction l with
  | nil =>
    intro c t _
    simp [statsLoop, pastYearInfractions, totalInfractions]
  | cons i rest ih =>
    intro c t h
    obtain ⟨d, hd⟩ := Option.isSome_iff_exists.mp (h i (by simp))
    have hrest : ∀ j ∈ rest, (parseDate j.Date).isSome :=
      fun j hj => h j (by simp [hj])
    have hip : inPastYear y i = dateLt y d := by simp [inPastYear, hd]
    by_cases hlt : dateLt y d = true
    · simp only [statsLoop, hd, hlt, if_true, ih _ _ hrest,
        pastYearInfractions, totalInfractions, List.filter_cons, hip,
        List.map_cons, List.sum_cons]
      refine congrArg Except.ok ?_
      simp only [Prod.mk.injEq]
      constructor <;> first | rfl | ring_nf
    · have hlt' : dateLt y d = false := by simpa using hlt
      simp only [statsLoop, hd, hlt', Bool.false_eq_true, if_false,
        ih _ _ hrest, pastYearInfractions, totalInfractions, List.filter_cons,
        hip, List.map_cons, List.sum_cons]
      refine congrArg Except.ok ?_
      simp only [Prod.mk.injEq]
      constructor <;> first | rfl | ring_nf

theorem statsLoop_err (y : date) :
    ∀ (l : List inspection) (c t : Int),
      (l.all fun i => (parseDate i.Date).isSome) = false →
      ∃ e, statsLoop y l c t = .error e := by
  intro l
  induction l with
  | nil => intro c t h; simp at h
  | cons i rest ih =>
    intro c t h
    rcases hp : parseDate i.Date with _ | d
    · exact ⟨"cannot parse date " ++ i.Date, by simp [statsLoop, hp]⟩
    · have hall : (rest.all fun j => (parseDate j.Date).isSome) = false := by
        simpa [hp] using h
      obtain ⟨e, he⟩ :=
        ih (if dateLt y d then c + inspectionSum i else c) (t + inspectionSum i) hall
      exact ⟨e, by simpa [statsLoop, hp] using he⟩

theorem compute_cons_ok (asOf : date) (r : restaurant) (rest : List restaurant)
    (h : allDatesParse r = true) :
    computeInfractionsPastYear asOf (r :: rest) =
      ({ r with
          InfractionsPastYear := pastYearInfractions (subOneYear asOf) r.Inspections,
          InfractionsTotal := totalInfractions r.Inspections } ::
        (computeInfractionsPastYear asOf rest).1,
       (computeInfractionsPastYear asOf rest).2) := by
  have hall : ∀ i ∈ r.Inspections, (parseDate i.Date).isSome := by
    simpa [allDatesParse, List.all_eq_true] using h
  simp [computeInfractionsPastYear, statsLoop_ok (subOneYear asOf) r.Inspections 0 0 hall]

theorem compute_cons_err (asOf : date) (r : restaurant) (rest : List restaurant)
    (h : allDatesParse r = false) :
    ∃ e, computeInfractionsPastYear asOf (r :: rest) = (r :: rest, some e) := by
  obtain ⟨e, he⟩ :=
    statsLoop_err (subOneYear asOf) r.Inspections 0 0 (by simpa [allDatesParse] using h)
  exact ⟨e, by simp [computeInfractionsPastYear, he]⟩

theorem compute_err_iff (asOf : date) : ∀ (rs : List restaurant),
    ((computeInfractionsPastYear asOf rs).2).isSome ↔
      ∃ r ∈ rs, ∃ i ∈ r.Inspections, parseDate i.Date = none := by
  intro rs
  induction rs with
  | nil => simp [computeInfractionsPastYear]
  | cons r rest ih =>
    by_cases hr : allDatesParse r = true
    · have hnone : ¬ ∃ i ∈ r.Inspections, parseDate i.Date = none := by
        rintro ⟨i, hi, hpi⟩
        have := (by simpa [allDatesParse, List.all_eq_true] using hr :
          ∀ i ∈ r.Inspections, (parseDate i.Date).isSome) i hi
        simp [hpi] at this
      simp [compute_cons_ok asOf r rest hr, ih, hnone]
    · have hr' : allDatesParse r = false := by simpa using hr
      obtain ⟨e, he⟩ := compute_cons_err asOf r rest hr'
      have : ∃ i ∈ r.Inspections, parseDate i.Date = none := by
        have := (by simpa [allDatesParse] using hr' :
          (r.Inspections.all fun i => (parseDate i.Date).isSome) = false)
        obtain ⟨i, hi, hb⟩ := List.all_eq_false.mp this
        exact ⟨i, hi, by simpa using hb⟩
      simp only [he, Option.isSome_some, true_iff]
      exact ⟨r, by simp, this⟩

theorem compute_abort (asOf : date) :
    ∀ (rs1 : List restaurant) (r : restaurant) (rs2 : List restaurant),
      (∀ x ∈ rs1, allDatesParse x = true) → allDatesParse r = false →
      ∃ pre e,
        computeInfractionsPastYear asOf (rs1 ++ r :: rs2) = (pre ++ r :: rs2, some e) ∧
        pre.length = rs1.length := by
  intro rs1
  induction rs1 with
  | nil =>
    intro r rs2 _ hr
    obtain ⟨e, he⟩ := compute_cons_err asOf r rs2 hr
    exact ⟨[], e, by simpa using he, rfl⟩
  | cons x rs1 ih =>
    intro r rs2 hall hr
    have hx : allDatesParse x = true := hall x (by simp)
    obtain ⟨pre, e, h1, h2⟩ := ih r rs2 (fun y hy => hall y (by simp [hy])) hr
    refine ⟨{ x with
        InfractionsPastYear := pastYearInfractions (subOneYear asOf) x.Inspections,
        InfractionsTotal := totalInfractions x.Inspections } :: pre, e, ?_,
      by simp [h2]⟩
    simp [compute_cons_ok asOf x (rs1 ++ r :: rs2) hx, h1]

theorem sumFilter_le_sumTotal (y : date) :
    ∀ l : List inspection, (∀ i ∈ l, 0 ≤ inspectionSum i) →
      pastYearInfractions y l ≤ totalInfractions l := by
  intro l
  induction l with
  | nil => intro _; simp [pastYearInfractions, totalInfractions]
  | cons i rest ih =>
    intro h
    have hi : 0 ≤ inspectionSum i := h i (by simp)
    have hr := ih fun j hj => h j (by simp [hj])
    by_cases hp : inPastYear y i = true
    · simp only [pastYearInfractions, totalInfractions, List.filter_cons, hp,
        if_true, List.map_cons, List.sum_cons] at hr ⊢
      omega
    · have hp' : inPastYear y i = false := by simpa using hp
      simp only [pastYearInfractions, totalInfractions, List.filter_cons, hp',
        Bool.false_eq_true, if_false, List.map_cons, List.sum_cons] at hr ⊢
      omega

/-! ## Lemmas: geographic filter, scheduler, geocoding -/

theorem selectSubset_eq_filter :
    ∀ (rs : List restaurant) (t : ℚ),
      selectSubset rs t = rs.filter fun r => decide (r.LatLong.Long < t) := by
  intro rs t
  induction rs with
  | nil => simp [selectSubset]
  | cons r rest ih =>
    by_cases h : r.LatLong.Long < t
    · simp [selectSubset, h, List.filter_cons, ih]
    · simp [selectSubset, h, List.filter_cons, ih]

theorem fetchSchedule_eq_filter :
    ∀ (rs : List restaurant) (b : Bool),
      fetchDetailsSchedule rs b = rs.filter fun r => r.Inspections.isEmpty || b := by
  intro rs b
  induction rs with
  | nil => simp [fetchDetailsSchedule]
  | cons r rest ih =>
    cases hi : r.Inspections with
    | nil => simp [fetchDetailsSchedule, hi, List.filter_cons, ih]
    | cons x t =>
      cases b with
      | true => simp [fetchDetailsSchedule, hi, List.filter_cons, ih]
      | false => simp [fetchDetailsSchedule, hi, List.filter_cons, ih]

theorem workerLoop_stops_at_err (f : restaurant → Option restaurant) :
    ∀ (q1 : List restaurant) (r : restaurant) (q2 : List restaurant),
      (∀ x ∈ q1, (f x).isSome) → f r = none →
      workerLoop f (q1 ++ r :: q2) = q1.filterMap f := by
  intro q1
  induction q1 with
  | nil =>
    intro r q2 _ hr
    simp [workerLoop, hr]
  | cons x q1 ih =>
    intro r q2 h hr
    obtain ⟨x', hx⟩ := Option.isSome_iff_exists.mp (h x (by simp))
    simp [workerLoop, hx, List.filterMap_cons,
      ih r q2 (fun y hy => h y (by simp [hy])) hr]

theorem zip_self_eq {α} : ∀ (l : List α), ∀ p ∈ l.zip l, p.2 = p.1 := by
  intro l
  induction l with
  | nil => simp
  | cons a t ih =>
    intro p hp
    simp only [List.zip_cons_cons, List.mem_cons] at hp
    rcases hp with h | h
    · rw [h]
    · exact ih p h

theorem geocodeLoop_frame (g : String → Except String latLong) :
    ∀ (rs : List restaurant) (cache : Cache),
      ((geocodeLoop g rs cache).1).length = rs.length ∧
      ∀ p ∈ rs.zip (geocodeLoop g rs cache).1,
        p.1.Community ≠ vancouverWestside → p.2 = p.1 := by
  intro rs
  induction rs with
  | nil => intro cache; simp [geocodeLoop]
  | cons r rest ih =>
    intro cache
    by_cases hw : r.Community = vancouverWestside
    · rcases hg : geocode g cache r.SiteAddress with ⟨res, cache', flag⟩
      rcases res with e | c
      · have hshape : (geocodeLoop g (r :: rest) cache).1 = r :: rest := by
          simp [geocodeLoop, hw, hg]
        constructor
        · simp [hshape]
        · intro p hp hne
          rw [hshape] at hp
          exact zip_self_eq (r :: rest) p hp
      · have hshape : (geocodeLoop g (r :: rest) cache).1 =
            { r with LatLong := c } :: (geocodeLoop g rest cache').1 := by
          simp [geocodeLoop, hw, hg]
        constructor
        · simp [hshape, (ih cache').1]
        · intro p hp hne
          rw [hshape] at hp
          simp only [List.zip_cons_cons, List.mem_cons] at hp
          rcases hp with h | h
          · exfalso
            apply hne
            rw [h]
            exact hw
          · exact (ih cache').2 p h hne
    · have hshape : (geocodeLoop g (r :: rest) cache).1 =
          r :: (geocodeLoop g rest cache).1 := by
        simp [geocodeLoop, hw]
      constructor
      · simp [hshape, (ih cache).1]
      · intro p hp hne
        rw [hshape] at hp
        simp only [List.zip_cons_cons, List.mem_cons] at hp
        rcases hp with h | h
        · rw [h]
        · exact (ih cache).2 p h hne

theorem geocodeLoop_blank_aborts (g : String → Except String latLong) :
    ∀ (rs : List restaurant) (cache : Cache),
      (∃ r ∈ rs, r.Community = vancouverWestside ∧ r.SiteAddress = "") →
      ((geocodeLoop g rs cache).2.2).isSome := by
  intro rs
  induction rs with
  | nil => intro cache h; simp at h
  | cons r rest ih =>
    intro cache h
    by_cases hw : r.Community = vancouverWestside
    · rcases hg : geocode g cache r.SiteAddress with ⟨res, cache', flag⟩
      rcases res with e | c
      · simp [geocodeLoop, hw, hg]
      · rcases h with ⟨x, hx, hxw, hxa⟩
        rcases List.mem_cons.mp hx with hx1 | hx1
        · exfalso
          rw [hx1] at hxa
          rw [hxa] at hg
          simp [geocode] at hg
        · simp only [geocodeLoop, hw, if_true, hg]
          exact ih cache' ⟨x, hx1, hxw, hxa⟩
    · rcases h with ⟨x, hx, hxw, hxa⟩
      rcases List.mem_cons.mp hx with hx1 | hx1
      · exact absurd (hx1 ▸ hxw) hw
      · simp only [geocodeLoop, hw, if_neg hw]
        exact ih cache ⟨x, hx1, hxw, hxa⟩

/-! ## Claim theorems -/

/-- C1 (counterexample): the claim as stated is false.  In
`computeInfractionsPastYear asOfC [rBad, rStale]` the restaurant at
index 1 has an empty inspection sequence (so all of its dates parse),
yet the aggregator leaves its stale `InfractionsTotal = 5` untouched,
because the malformed date of the restaurant at index 0 aborts the
pass first: the aggregator does not set the sums for every restaurant
whose own dates parse. -/
theorem aggregator_per_restaurant_cex :
    allDatesParse rStale = true ∧ rStale.Inspections = [] ∧
    ((computeInfractionsPastYear asOfC [rBad, rStale]).1.getD 1 r0).InfractionsTotal = 5 ∧
    totalInfractions rStale.Inspections = 0 := by
  decide

/-- C1 (amended): for every restaurant whose own and all preceding
restaurants' inspection dates parse in the fixed `DD-Mon-YYYY` format,
the aggregator sets `InfractionsTotal` to the sum of
`critical+noncritical` over all of its inspections and
`InfractionsPastYear` to the same sum over exactly the inspections
dated strictly after `asOf` minus one year; in particular such a
restaurant with no inspections gets `0` and `0`. -/
theorem aggregator_sets_sums (asOf : date) :
    ∀ (rs1 : List restaurant) (r : restaurant) (rs2 : List restaurant),
      (∀ x ∈ rs1, allDatesParse x = true) → allDatesParse r = true →
      ∃ pre r' tail,
        (computeInfractionsPastYear asOf (rs1 ++ r :: rs2)).1 = pre ++ r' :: tail ∧
        pre.length = rs1.length ∧
        r'.InfractionsTotal = totalInfractions r.Inspections ∧
        r'.InfractionsPastYear = pastYearInfractions (subOneYear asOf) r.Inspections ∧
        (r.Inspections = [] → r'.InfractionsPastYear = 0 ∧ r'.InfractionsTotal = 0) := by
  intro rs1
  induction rs1 with
  | nil =>
    intro r rs2 _ hr
    refine ⟨[], { r with
        InfractionsPastYear := pastYearInfractions (subOneYear asOf) r.Inspections,
        InfractionsTotal := totalInfractions r.Inspections },
      (computeInfractionsPastYear asOf rs2).1, ?_, rfl, rfl, rfl, ?_⟩
    · simpa using congrArg Prod.fst (compute_cons_ok asOf r rs2 hr)
    · intro h
      simp [h, totalInfractions, pastYearInfractions]
  | cons x rs1 ih =>
    intro r rs2 hall hr
    have hx : allDatesParse x = true := hall x (by simp)
    obtain ⟨pre, r', tail, h1, h2, h3, h4, h5⟩ :=
      ih r rs2 (fun y hy => hall y (by simp [hy])) hr
    refine ⟨{ x with
        InfractionsPastYear := pastYearInfractions (subOneYear asOf) x.Inspections,
        InfractionsTotal := totalInfractions x.Inspections } :: pre, r', tail,
      ?_, by simp [h2], h3, h4, h5⟩
    have hc := compute_cons_ok asOf x (rs1 ++ r :: rs2) hx
    simp only [List.cons_append, hc, h1]

/-- C1 witness: the amended theorem applied at `asOfC` with the
well-dated restaurant `rGood` and empty surrounding lists. -/
theorem aggregator_sets_sums_witness :
    ∃ pre r' tail,
      (computeInfractionsPastYear asOfC ([] ++ rGood :: [])).1 = pre ++ r' :: tail ∧
      pre.length = ([] : List restaurant).length ∧
      r'.InfractionsTotal = totalInfractions rGood.Inspections ∧
      r'.InfractionsPastYear = pastYearInfractions (subOneYear asOfC) rGood.Inspections ∧
      (rGood.Inspections = [] → r'.InfractionsPastYear = 0 ∧ r'.InfractionsTotal = 0) :=
  aggregator_sets_sums asOfC [] rGood [] (by simp) (by decide)

/-- C2: `getUBCRestaurants` applies the pure filter `selectSubset` at
threshold `borderLng`; `selectSubset rs t` equals the order-preserving
`List.filter` keeping exactly the restaurants with longitude strictly
below `t`, is a sublist of its input (hence a subset in the input's
relative order), and contains a restaurant iff the input contains it
with longitude strictly below the threshold. -/
theorem selectSubset_pure_filter :
    (∀ d : db, getUBCRestaurants d = selectSubset d.Restaurants borderLng) ∧
    ∀ (rs : List restaurant) (t : ℚ),
      selectSubset rs t = rs.filter (fun r => decide (r.LatLong.Long < t)) ∧
      (selectSubset rs t).Sublist rs ∧
      ∀ r : restaurant, r ∈ selectSubset rs t ↔ r ∈ rs ∧ r.LatLong.Long < t := by
  refine ⟨fun d => rfl, fun rs t => ⟨selectSubset_eq_filter rs t, ?_, ?_⟩⟩
  · rw [selectSubset_eq_filter]
    exact List.filter_sublist rs
  · intro r
    rw [selectSubset_eq_filter]
    simp [List.mem_filter]

/-- C3: a restaurant is scheduled by the detail fetch scheduler iff it
has no recorded inspections or `forceRefetch` is set; hence a second
run with `forceRefetch = false` over a restaurant set whose records
all carry nonempty inspection sequences schedules no fetches. -/
theorem fetchSchedule_iff_and_idempotent :
    (∀ (rs : List restaurant) (b : Bool) (r : restaurant),
        r ∈ fetchDetailsSchedule rs b ↔
          r ∈ rs ∧ (r.Inspections = [] ∨ b = true)) ∧
    ∀ rs : List restaurant, (∀ r ∈ rs, r.Inspections ≠ []) →
      fetchDetailsSchedule rs false = [] := by
  constructor
  · intro rs b r
    rw [fetchSchedule_eq_filter]
    simp [List.mem_filter, List.isEmpty_iff]
  · intro rs h
    rw [fetchSchedule_eq_filter]
    rw [List.filter_eq_nil_iff]
    intro a ha
    have := h a ha
    cases hi : a.Inspections with
    | nil => exact absurd hi this
    | cons x t => simp [hi]

/-- C3 witness: the scheduler of a second run at `forceRefetch = false`
over the populated record `rNeg` issues no fetches. -/
theorem fetchSchedule_iff_and_idempotent_witness :
    fetchDetailsSchedule [rNeg] false = [] :=
  fetchSchedule_iff_and_idempotent.2 [rNeg] (by decide)

/-- C4: the aggregation pass returns an error iff some inspection of
some restaurant in its input has a date that does not parse in the
fixed format, and such a malformed date aborts the entire pass:
with every restaurant before the failing one well-dated, the failing
record and every record after it are left untouched and the error is
returned for the whole run. -/
theorem aggregation_date_error_fatal :
    (∀ (asOf : date) (rs : List restaurant),
        ((computeInfractionsPastYear asOf rs).2).isSome ↔
          ∃ r ∈ rs, ∃ i ∈ r.Inspections, parseDate i.Date = none) ∧
    ∀ (asOf : date) (rs1 : List restaurant) (r : restaurant) (rs2 : List restaurant),
      (∀ x ∈ rs1, allDatesParse x = true) → allDatesParse r = false →
      ∃ pre e,
        computeInfractionsPastYear asOf (rs1 ++ r :: rs2) = (pre ++ r :: rs2, some e) ∧
        pre.length = rs1.length :=
  ⟨fun asOf rs => compute_err_iff asOf rs, fun asOf => compute_abort asOf⟩

/-- C4 witness: the theorem applied at `asOfC` and the ill-dated
restaurant `rBad`. -/
theorem aggregation_date_error_fatal_witness :
    (((computeInfractionsPastYear asOfC [rBad]).2).isSome ↔
      ∃ r ∈ [rBad], ∃ i ∈ r.Inspections, parseDate i.Date = none) ∧
    ∃ pre e,
      computeInfractionsPastYear asOfC ([] ++ rBad :: []) = (pre ++ rBad :: [], some e) ∧
      pre.length = ([] : List restaurant).length :=
  ⟨aggregation_date_error_fatal.1 asOfC [rBad],
   aggregation_date_error_fatal.2 asOfC [] rBad [] (by simp) (by decide)⟩

/-- C5 (counterexample): the save does not overwrite longer prior
durable content: `db.save` opens the file without truncation, so the
prior content's trailing bytes survive and the resulting file differs
from the bare encoding of the saved store. -/
theorem save_no_truncate_cex : save priorX makeDB ≠ encDb makeDB := by
  have h : encDb makeDB = [';', ';'] := by
    simp [encDb, makeDB, encList, encNat, Nat.digits_zero]
  have h2 : save priorX makeDB = [';', ';', 'x'] := by
    simp [save, h, priorX]
  rw [h2, h]
  decide

/-- C5 (amended): save-then-load round-trips — for any prior durable
content, loading the saved file yields a store with exactly the saved
restaurant sequence and geocode cache, because a single decode reads
only the leading value; the save fully overwrites the prior content
when that content is no longer than the new encoding (it writes from
offset 0 without truncating). -/
theorem save_load_roundtrip :
    ∀ (prior : Bytes) (d : db),
      load (some (save prior d)) = .ok d ∧
      (prior.length ≤ (encDb d).length → save prior d = encDb d) := by
  intro prior d
  constructor
  · simp [load, save, decDb_enc]
  · intro h
    simp [save, List.drop_eq_nil_of_le h]

/-- C5 witness: the amended theorem applied at empty prior content and
the empty store. -/
theorem save_load_roundtrip_witness :
    load (some (save [] makeDB)) = .ok makeDB ∧ save [] makeDB = encDb makeDB :=
  ⟨(save_load_roundtrip [] makeDB).1, (save_load_roundtrip [] makeDB).2 (by simp)⟩

/-- C6 (counterexample): the claim fails for the empty address: with
the empty string present as a cache key (as a crafted durable file can
make it), `geocode` still returns the empty-address error rather than
the stored coordinate, because the blank check precedes the lookup. -/
theorem geocode_cache_hit_cex :
    lookupCache cacheE (normalizeAddress "") = some ⟨1, 2⟩ ∧
    (geocode gFail cacheE "").1 ≠ .ok ⟨1, 2⟩ ∧
    (geocode gFail cacheE "").1 = .error "address empty" := by
  refine ⟨by decide, by decide, rfl⟩

/-- C6 (amended): for every nonempty address whose normalized form is
present in the geocode cache, `geocode` returns the stored coordinate,
never invokes the external geocoding capability, and leaves the cache
unchanged. -/
theorem geocode_cache_hit (g : String → Except String latLong) (cache : Cache)
    (address : String) (c : latLong) (hne : address ≠ "")
    (hc : lookupCache cache (normalizeAddress address) = some c) :
    geocode g cache address = (.ok c, cache, false) := by
  obtain ⟨l⟩ := address
  have hl : l ≠ [] := by
    intro h
    apply hne
    rw [h]
  simp [geocode, hc, List.length_eq_zero, hl]

/-- C6 witness: the amended theorem applied to a two-line address whose
normalization is cached. -/
theorem geocode_cache_hit_witness :
    geocode gFail cacheW "A\nB" = (.ok ⟨3, 4⟩, cacheW, false) :=
  geocode_cache_hit gFail cacheW "A\nB" ⟨3, 4⟩ (by decide) (by decide)

/-- C7 (counterexample): with a parseable old inspection carrying the
negative count `-1` — `strconv.Atoi` accepts negative numerals and the
aggregator adds the parsed counts unchecked — a successful pass yields
a restaurant with `InfractionsPastYear = 0 > -1 = InfractionsTotal`. -/
theorem pastYear_le_total_cex :
    (computeInfractionsPastYear asOfC [rNeg]).2 = none ∧
    ∃ r' ∈ (computeInfractionsPastYear asOfC [rNeg]).1,
      ¬ r'.InfractionsPastYear ≤ r'.InfractionsTotal := by
  decide

/-- C7 (amended): after a successful aggregation pass, every restaurant
whose own inspections all carry non-negative critical and noncritical
counts satisfies `InfractionsPastYear ≤ InfractionsTotal` — the
condition is per restaurant (input and output records paired by
position), so restaurants with negative counts elsewhere in the input
do not exempt the well-behaved ones. -/
theorem pastYear_le_total_nonneg (asOf : date) :
    ∀ rs : List restaurant,
      (computeInfractionsPastYear asOf rs).2 = none →
      ∀ p ∈ rs.zip (computeInfractionsPastYear asOf rs).1,
        (∀ i ∈ p.1.Inspections, 0 ≤ i.Critical ∧ 0 ≤ i.NonCritical) →
        p.2.InfractionsPastYear ≤ p.2.InfractionsTotal := by
  intro rs
  induction rs with
  | nil =>
    intro _ p hp
    simp [computeInfractionsPastYear] at hp
  | cons r rest ih =>
    intro herr p hp hnn
    by_cases hr : allDatesParse r = true
    · have h1 := congrArg Prod.fst (compute_cons_ok asOf r rest hr)
      have h2 := congrArg Prod.snd (compute_cons_ok asOf r rest hr)
      dsimp only at h1 h2
      rw [h2] at herr
      rw [h1] at hp
      simp only [List.zip_cons_cons, List.mem_cons] at hp
      rcases hp with h | h
      · rw [h] at hnn ⊢
        dsimp only at hnn ⊢
        have hnni : ∀ i ∈ r.Inspections, 0 ≤ inspectionSum i := by
          intro i hi
          have h3 := hnn i hi
          unfold inspectionSum
          omega
        exact sumFilter_le_sumTotal (subOneYear asOf) r.Inspections hnni
      · exact ih herr p h hnn
    · exfalso
      obtain ⟨e, he⟩ := compute_cons_err asOf r rest (by simpa using hr)
      rw [he] at herr
      simp at herr

/-- C7 witness: the amended theorem applied to the mixed input
`[rNeg, rGood]` — the pass succeeds, `rNeg` carries a negative count,
and the inequality is still delivered for the non-negative `rGood` at
index 1. -/
theorem pastYear_le_total_nonneg_witness :
    ((computeInfractionsPastYear asOfC [rNeg, rGood]).1.getD 1 r0).InfractionsPastYear ≤
      ((computeInfractionsPastYear asOfC [rNeg, rGood]).1.getD 1 r0).InfractionsTotal :=
  pastYear_le_total_nonneg asOfC [rNeg, rGood] (by decide)
    (rGood, (computeInfractionsPastYear asOfC [rNeg, rGood]).1.getD 1 r0)
    (by decide) (by decide)

/-- C8: `geocode` on the blank address returns the empty-address error
with no external call and the cache unmodified, and a Westside
restaurant with a blank address makes the whole geocoding pass return
an error (the pass aborts with some failure, propagated to its
caller). -/
theorem geocode_empty_address_aborts :
    (∀ (g : String → Except String latLong) (cache : Cache),
        geocode g cache "" = (.error "address empty", cache, false)) ∧
    ∀ (g : String → Except String latLong) (d : db),
      (∃ r ∈ d.Restaurants, r.Community = vancouverWestside ∧ r.SiteAddress = "") →
      ((geocodeRestaurants g d).2).isSome := by
  constructor
  · intro g cache
    rfl
  · intro g d h
    exact geocodeLoop_blank_aborts g d.Restaurants d.GeocodeCache h

/-- C8 witness: the theorem applied to a store holding one Westside
restaurant with a blank address. -/
theorem geocode_empty_address_aborts_witness :
    ((geocodeRestaurants gFail ⟨[rWest0], []⟩).2).isSome :=
  geocode_empty_address_aborts.2 gFail ⟨[rWest0], []⟩
    ⟨rWest0, by simp, by decide, by decide⟩

/-- C9: a worker that hits a fetch error on one restaurant stops its
own loop — with all of `q1` fetching successfully and `r` failing, the
worker processes exactly `q1`, touching nothing queued after `r` and
retrying nothing — while the scheduler run as a whole still completes
normally and returns the other workers' results. -/
theorem worker_error_stops_worker_only
    (f : restaurant → Option restaurant) (q1 : List restaurant) (r : restaurant)
    (q2 : List restaurant) (qs1 qs2 : List (List restaurant))
    (h1 : ∀ x ∈ q1, (f x).isSome) (h2 : f r = none) :
    workerLoop f (q1 ++ r :: q2) = q1.filterMap f ∧
    fetchDetailsRun f (qs1 ++ (q1 ++ r :: q2) :: qs2) =
      fetchDetailsRun f qs1 ++ q1.filterMap f ++ fetchDetailsRun f qs2 := by
  have hw := workerLoop_stops_at_err f q1 r q2 h1 h2
  refine ⟨hw, ?_⟩
  simp [fetchDetailsRun, hw, List.append_assoc]

/-- C9 witness: the theorem applied to the oracle `fOk`, a queue whose
second entry fails, and one healthy neighbouring worker queue. -/
theorem worker_error_stops_worker_only_witness :
    workerLoop fOk ([r0] ++ rNeg :: [r0]) = [r0].filterMap fOk ∧
    fetchDetailsRun fOk ([[r0]] ++ ([r0] ++ rNeg :: [r0]) :: []) =
      fetchDetailsRun fOk [[r0]] ++ [r0].filterMap fOk ++ fetchDetailsRun fOk [] :=
  worker_error_stops_worker_only fOk [r0] rNeg [r0] [[r0]] [] (by decide) (by decide)

/-- C10: the geocoding pass touches only restaurants of the
`"Vancouver - Westside"` community — every other restaurant's record
(coordinate included) is returned unchanged, whatever the external
geocoder answers and whether or not the pass aborts; the configured
longitude threshold is negative, so a restaurant left with the zero
coordinate is never selected by the geographic filter. -/
theorem geocode_westside_frame :
    (∀ (g : String → Except String latLong) (d : db),
        ((geocodeRestaurants g d).1.Restaurants).length = d.Restaurants.length ∧
        ∀ p ∈ d.Restaurants.zip (geocodeRestaurants g d).1.Restaurants,
          p.1.Community ≠ vancouverWestside → p.2 = p.1) ∧
    borderLng < 0 ∧
    ∀ (d : db) (r : restaurant), r.LatLong.Long = 0 → r ∉ getUBCRestaurants d := by
  refine ⟨?_, by norm_num [borderLng], ?_⟩
  · intro g d
    exact geocodeLoop_frame g d.Restaurants d.GeocodeCache
  · intro d r h hr
    rw [getUBCRestaurants, selectSubset_eq_filter] at hr
    simp only [List.mem_filter, decide_eq_true_eq] at hr
    have h2 : (0 : ℚ) < borderLng := h ▸ hr.2
    norm_num [borderLng] at h2

/-- C10 witness: the theorem applied to a store holding one non-Westside
restaurant with the zero coordinate. -/
theorem geocode_westside_frame_witness :
    ((r0, r0).2 = (r0, r0).1) ∧ r0 ∉ getUBCRestaurants ⟨[r0], []⟩ :=
  ⟨(geocode_westside_frame.1 gFail ⟨[r0], []⟩).2 (r0, r0) (by decide) (by decide),
   geocode_westside_frame.2.2 ⟨[r0], []⟩ r0 rfl⟩

end FoodSafety
